import Mathlib

/-!
Shallow embedding of the llm-logger extension's event-aggregation pipeline:
the background coordinator (queue, workflow classifier, batching/flush),
the offscreen correlation router, the worker-side bounded caches, and the
content-script screenshot throttle.
-/

namespace LLMLogger

/-- Field-change payload attached to form events (copied field-by-field into
workflow steps by updateWorkflow). -/
structure FieldChange where
  fieldName : String
  fromValue : String
  toValue : String
  options : Option String
deriving DecidableEq

/-- Field metadata object carried by events; the classifier reads only its
fieldLabel (the empty string models a missing/falsy label). -/
structure FieldDetails where
  fieldLabel : String
  value : String
deriving DecidableEq

/-- An enriched capture event as consumed by handleEvent. String fields that
JavaScript leaves undefined are modelled as the empty string, which is falsy
in every place the source tests them. -/
structure Event where
  type : String
  elementType : String
  description : String
  actionType : String
  identifier : String
  fieldDetails : Option FieldDetails
  fieldChange : Option FieldChange
  formData : String
  label : String
  imgBase64 : Option String
  ts : Nat
deriving DecidableEq

/-- The details object stored inside each workflow step. -/
structure StepDetails where
  type : String
  elementType : String
  fieldDetails : Option FieldDetails
  actionType : String
  fieldChange : Option FieldChange
  formData : String
deriving DecidableEq

/-- One step of the current workflow. -/
structure Step where
  action : String
  timestamp : Nat
  details : StepDetails
deriving DecidableEq

/-- A classification pattern from WORKFLOW_PATTERNS. -/
structure Pattern where
  name : String
  startTriggers : List String
  endTriggers : List String
  targetTypes : List String
deriving DecidableEq

/-- The pattern table, in the object-literal (iteration) order of the source. -/
def WORKFLOW_PATTERNS : List (String × Pattern) :=
  [("FIELD_UPDATE",
     ⟨"Field Update", ["select", "click"], ["change"], ["select", "input", "textarea"]⟩),
   ("FORM_SUBMISSION",
     ⟨"Form Submission", ["change"], ["submit"], ["form"]⟩),
   ("NAVIGATION",
     ⟨"Navigation", ["click"], ["navigation"], ["a", "button"]⟩)]

/-- Lookup WORKFLOW_PATTERNS[t]. -/
def patternFor (t : String) : Option Pattern :=
  match WORKFLOW_PATTERNS.find? (fun e => e.1 = t) with
  | some e => some e.2
  | none => none

/-- The currently active workflow (currentWorkflow with a non-null type);
none models the idle sentinel record. -/
structure ActiveWorkflow where
  type : String
  target : String
  steps : List Step
  startTime : Nat
  lastEventTime : Nat
deriving DecidableEq

/-- The object finishWorkflow pushes onto the queue. -/
structure WorkflowRecord where
  workflowType : String
  target : String
  steps : List Step
  startTime : Nat
  endTime : Nat
  duration : Nat
  fieldChanges : List FieldChange
deriving DecidableEq

/-- A queue entry: a raw event or a completed workflow record. -/
inductive QueueItem where
  | ev (e : Event)
  | wf (w : WorkflowRecord)
deriving DecidableEq

/-- Coordinator state: the batch queue plus the classifier's workflow state. -/
structure CoordState where
  queue : List QueueItem
  currentWorkflow : Option ActiveWorkflow
deriving DecidableEq

def MAX_BATCH_SIZE : Nat := 10

/-- JavaScript a || b where a may be an absent/empty string (both falsy). -/
def strOr (a b : String) : String := if a = "" then b else a

/-- JavaScript a?.f || b for an optional record field. -/
def optStrOr (a : Option String) (b : String) : String :=
  match a with
  | some s => strOr s b
  | none => b

/-- The record built by finishWorkflow from the active workflow. -/
def workflowRecordOf (w : ActiveWorkflow) : WorkflowRecord :=
  { workflowType := w.type
    target := w.target
    steps := w.steps
    startTime := w.startTime
    endTime := w.lastEventTime
    duration := w.lastEventTime - w.startTime
    fieldChanges := w.steps.filterMap (fun s => s.details.fieldChange) }

/-- finishWorkflow: push the completed workflow onto the queue and reset, but
only when a workflow is active and has at least one step. -/
def finishWorkflow :
    Option ActiveWorkflow × List QueueItem → Option ActiveWorkflow × List QueueItem
  | (some w, q) =>
      if w.steps.length > 0 then (none, q ++ [QueueItem.wf (workflowRecordOf w)])
      else (some w, q)
  | (none, q) => (none, q)

/-- startTriggers/targetTypes test from the pattern loop of updateWorkflow. -/
def startMatches (p : Pattern) (evt : Event) : Bool :=
  p.startTriggers.contains evt.type && p.targetTypes.contains evt.elementType

/-- endTriggers test at the end of updateWorkflow (the none branch is
unreachable because the active type is always a key of the table). -/
def endTriggerHit (t : String) (evt : Event) : Bool :=
  match patternFor t with
  | some p => p.endTriggers.contains evt.type
  | none => false

/-- The stepDetails object pushed for each event while a workflow is active. -/
def mkStep (now : Nat) (evt : Event) : Step :=
  { action := strOr evt.description evt.type
    timestamp := now
    details :=
      { type := evt.type
        elementType := evt.elementType
        fieldDetails := evt.fieldDetails
        actionType := evt.actionType
        fieldChange := evt.fieldChange
        formData := evt.formData } }

/-- The fresh workflow created when a start trigger matches while idle. -/
def freshWorkflow (now : Nat) (t : String) (evt : Event) : ActiveWorkflow :=
  { type := t
    target := optStrOr (evt.fieldDetails.map (fun fd => fd.fieldLabel)) evt.identifier
    steps := []
    startTime := now
    lastEventTime := now }

/-- One iteration of the for-loop over WORKFLOW_PATTERNS in updateWorkflow:
on a start match, force-finish a stale active workflow (strictly older than
5000 ms) and start a new one if idle. -/
def scanPattern (now : Nat) (evt : Event)
    (acc : Option ActiveWorkflow × List QueueItem) (entry : String × Pattern) :
    Option ActiveWorkflow × List QueueItem :=
  if startMatches entry.2 evt then
    let acc1 :=
      match acc.1 with
      | some w => if now - w.lastEventTime > 5000 then finishWorkflow acc else acc
      | none => acc
    match acc1.1 with
    | none => (some (freshWorkflow now entry.1 evt), acc1.2)
    | some _ => acc1
  else acc

/-- updateWorkflow: run the pattern loop, then append the event as a step of
the active workflow (if any) and finish it when an end trigger matches. -/
def updateWorkflow (now : Nat) (evt : Event) (st : CoordState) : CoordState :=
  let acc := WORKFLOW_PATTERNS.foldl (scanPattern now evt) (st.currentWorkflow, st.queue)
  match acc.1 with
  | some w =>
      let w' : ActiveWorkflow :=
        { w with steps := w.steps ++ [mkStep now evt], lastEventTime := now }
      if endTriggerHit w.type evt then
        let pq := finishWorkflow (some w', acc.2)
        { queue := pq.2, currentWorkflow := pq.1 }
      else { queue := acc.2, currentWorkflow := some w' }
  | none => { queue := acc.2, currentWorkflow := none }

/-- The label-enrichment switch at the top of handleEvent. The field_change
branch reads evt.fieldChange, which such events always carry (JavaScript
would fault otherwise). -/
def addLabel (evt : Event) : Event :=
  if evt.actionType = "" then evt
  else if evt.actionType = "field_change" then
    match evt.fieldChange with
    | some fc =>
        { evt with label :=
            "Changed " ++ fc.fieldName ++ " from \"" ++ fc.fromValue ++
              "\" to \"" ++ fc.toValue ++ "\"" }
    | none => evt
  else if evt.actionType = "checkbox_change" ∨ evt.actionType = "radio_selection" ∨
      evt.actionType = "button_click" ∨ evt.actionType = "field_input" then
    { evt with label := evt.description }
  else if evt.description = "" then evt
  else { evt with label := evt.description }

/-- Persistence sanitization: events are stored with imgBase64 nulled. -/
def sanitizeItem : QueueItem → QueueItem
  | QueueItem.ev e => QueueItem.ev { e with imgBase64 := none }
  | QueueItem.wf w => QueueItem.wf w

/-- The image payload still present on a queue item. -/
def itemImg : QueueItem → Option String
  | QueueItem.ev e => e.imgBase64
  | QueueItem.wf _ => none

/-- Outcome of one handleEvent call: whether a flush was attempted and, on a
successful store write, the array persisted under the events key. -/
structure FlushOutcome where
  attempted : Bool
  persisted : Option (List QueueItem)
deriving DecidableEq

/-- The phase of handleEvent before the flush check: enrich the label, run the
classifier, then push the (labelled) raw event onto the queue. -/
def enqueueEvent (now : Nat) (evt : Event) (st : CoordState) : CoordState :=
  let evt' := addLabel evt
  let st' := updateWorkflow now evt' st
  { st' with queue := st'.queue ++ [QueueItem.ev evt'] }

/-- handleEvent: enqueue, then flush when the queue reached MAX_BATCH_SIZE or
the event is a screenshot. A flush first finishes any ongoing workflow; if
the store write fails (storeOk = false) the queue is not cleared. -/
def handleEvent (now : Nat) (storeOk : Bool) (evt : Event) (st : CoordState) :
    CoordState × FlushOutcome :=
  let st' := enqueueEvent now evt st
  if MAX_BATCH_SIZE ≤ st'.queue.length || (addLabel evt).type = "screenshot" then
    let pq := finishWorkflow (st'.currentWorkflow, st'.queue)
    if storeOk then
      ({ queue := [], currentWorkflow := pq.1 },
       ⟨true, some (pq.2.map sanitizeItem)⟩)
    else
      ({ queue := pq.2, currentWorkflow := pq.1 }, ⟨true, none⟩)
  else (st', ⟨false, none⟩)

/-- Ingest a timed sequence of events (store writes succeeding), returning the
final state, the number of flushes, and the persisted arrays in order. -/
def runEvents (l : List (Nat × Event)) (st : CoordState) :
    CoordState × Nat × List (List QueueItem) :=
  match l with
  | [] => (st, 0, [])
  | (t, e) :: rest =>
      let r := handleEvent t true e st
      let rec' := runEvents rest r.1
      (rec'.1, (if r.2.attempted then 1 else 0) + rec'.2.1,
        (match r.2.persisted with | some p => [p] | none => []) ++ rec'.2.2)

/-- Fold the classifier alone over a timed event sequence. -/
def updateMany (l : List (Nat × Event)) (st : CoordState) : CoordState :=
  l.foldl (fun s te => updateWorkflow te.1 te.2 s) st

/-! Association-list model of a JavaScript Map: unique keys in insertion
order; set replaces in place, delete removes the entry with the key. -/

/-- Map.get / Map.has on an association list. -/
def tblLookup {α : Type} : List (String × α) → String → Option α
  | [], _ => none
  | (k, v) :: rest, x => if k = x then some v else tblLookup rest x

/-- Map.set: overwrite in place when the key is present, else append. -/
def tblSet {α : Type} : List (String × α) → String → α → List (String × α)
  | [], k, v => [(k, v)]
  | (k', v') :: rest, k, v =>
      if k' = k then (k, v) :: rest else (k', v') :: tblSet rest k v

/-- Map.delete: remove the entry holding the key (keys are unique). -/
def tblDelete {α : Type} : List (String × α) → String → List (String × α)
  | [], _ => []
  | (k', v') :: rest, k => if k' = k then rest else (k', v') :: tblDelete rest k

/-! Correlation router (offscreen controller). -/

/-- A worker reply: its correlation id plus an uninterpreted payload. -/
structure Reply where
  id : String
  payload : String
deriving DecidableEq

/-- Registering a describe/summarise command: pending.set(msg.id, port). -/
def registerRequest (pending : List (String × Nat)) (id : String) (port : Nat) :
    List (String × Nat) :=
  tblSet pending id port

/-- routeResponse: look up the pending table; if found, forward the reply
verbatim to the recorded port and delete the entry; otherwise drop it. -/
def routeResponse (pending : List (String × Nat)) (r : Reply) :
    List (String × Nat) × Option (Nat × Reply) :=
  match tblLookup pending r.id with
  | some port => (tblDelete pending r.id, some (port, r))
  | none => (pending, none)

/-- Route a sequence of worker replies, logging the deliveries in order. -/
def routeAll (pending : List (String × Nat)) :
    List Reply → List (String × Nat) × List (Nat × Reply)
  | [] => (pending, [])
  | r :: rest =>
      let step := routeResponse pending r
      let tail := routeAll step.1 rest
      (tail.1, (match step.2 with | some d => [d] | none => []) ++ tail.2)

/-! Worker-side bounded caches (summarizer worker MAX_CACHE_SIZE = 50,
VLM worker literal bound 100): insert, then if the size exceeds the bound
delete the first-inserted key. Reads: Map.get, which does not reorder. -/

def MAX_CACHE_SIZE : Nat := 50

def VLM_CACHE_LIMIT : Nat := 100

/-- cache.set(key, value) followed by the overflow eviction of
cache.keys().next().value (the oldest-inserted key). -/
def cachePut {α : Type} (cap : Nat) (m : List (String × α)) (k : String) (v : α) :
    List (String × α) :=
  let m' := tblSet m k v
  if cap < m'.length then
    match m' with
    | [] => []
    | (k0, _) :: _ => tblDelete m' k0
  else m'

/-- The VLM worker's cache key: request id ++ "-" ++ first 100 chars of the
image payload. -/
def vlmCacheKey (id imgBase64 : String) : String :=
  id ++ "-" ++ imgBase64.take 100

/-- The cache probe the VLM worker performs before running inference. -/
def vlmCacheProbe (cache : List (String × String)) (id imgBase64 : String) :
    Option String :=
  tblLookup cache (vlmCacheKey id imgBase64)

/-! Screenshot throttle (content script). -/

def SCREENSHOT_INTERVAL : Nat := 1000

def MIN_SCREENSHOT_INTERVAL : Nat := 2000

/-- Throttle state: time of the last capture and the last content hash. -/
structure ThrottleState where
  lastScreenshotTime : Nat
  lastDOMHash : String
deriving DecidableEq

/-- canTakeScreenshot: at least MIN_SCREENSHOT_INTERVAL since the last one. -/
def canTakeScreenshot (now : Nat) (st : ThrottleState) : Bool :=
  MIN_SCREENSHOT_INTERVAL ≤ now - st.lastScreenshotTime

/-- One tick of the periodic timer in startScreenshotCapture: skip when the
tab is hidden or when less than SCREENSHOT_INTERVAL has passed since the
last capture; otherwise capture and stamp the time. -/
def periodicTick (now : Nat) (hidden : Bool) (st : ThrottleState) :
    Bool × ThrottleState :=
  if hidden then (false, st)
  else if now - st.lastScreenshotTime < SCREENSHOT_INTERVAL then (false, st)
  else (true, { st with lastScreenshotTime := now })

/-- The debounced body of checkAndTakeScreenshot: capture only when the
content hash changed and canTakeScreenshot allows it. -/
def contentChangeCheck (now : Nat) (currentHash : String) (st : ThrottleState) :
    Bool × ThrottleState :=
  if currentHash != st.lastDOMHash && canTakeScreenshot now st then
    (true, { lastScreenshotTime := now, lastDOMHash := currentHash })
  else (false, st)

/-! Concrete sample events used by counterexamples and witnesses. -/

/-- A dropdown selection: start trigger of the FIELD_UPDATE pattern. -/
def eSelect : Event :=
  { type := "select", elementType := "select", description := "", actionType := ""
    identifier := "country", fieldDetails := none, fieldChange := none
    formData := "", label := "", imgBase64 := none, ts := 100 }

/-- A change on a select element: end trigger of FIELD_UPDATE. -/
def eChange : Event :=
  { type := "change", elementType := "select", description := "", actionType := ""
    identifier := "country", fieldDetails := none, fieldChange := none
    formData := "", label := "", imgBase64 := none, ts := 200 }

/-- A plain click on a div: matches no workflow pattern. -/
def eClickDiv : Event :=
  { type := "click", elementType := "div", description := "", actionType := ""
    identifier := "box", fieldDetails := none, fieldChange := none
    formData := "", label := "", imgBase64 := none, ts := 0 }

/-- A focus event on a div: neither a start trigger nor an end trigger. -/
def eFocusDiv : Event :=
  { type := "focus", elementType := "div", description := "", actionType := ""
    identifier := "box", fieldDetails := none, fieldChange := none
    formData := "", label := "", imgBase64 := none, ts := 1000 }

/-- A click on an anchor: start trigger of the NAVIGATION pattern. -/
def eNavClick : Event :=
  { type := "click", elementType := "a", description := "", actionType := ""
    identifier := "home", fieldDetails := none, fieldChange := none
    formData := "", label := "", imgBase64 := none, ts := 10000 }

/-- A screenshot event carrying an image payload. -/
def eShot : Event :=
  { type := "screenshot", elementType := "", description := "", actionType := ""
    identifier := "", fieldDetails := none, fieldChange := none
    formData := "", label := "", imgBase64 := some "iVBORw0KGgo", ts := 500 }

/-- The ten plain click events of the batch scenario. -/
def tenClicks : List (Nat × Event) :=
  (List.range 10).map (fun i => (100 * i, eClickDiv))

/-! Basic lemmas about the embedded operations. -/

theorem addLabel_type (e : Event) : (addLabel e).type = e.type := by
  unfold addLabel
  repeat' split
  all_goals rfl

theorem addLabel_elementType (e : Event) : (addLabel e).elementType = e.elementType := by
  unfold addLabel
  repeat' split
  all_goals rfl

theorem startMatches_addLabel (p : Pattern) (e : Event) :
    startMatches p (addLabel e) = startMatches p e := by
  unfold startMatches
  rw [addLabel_type, addLabel_elementType]

theorem endTriggerHit_addLabel (t : String) (e : Event) :
    endTriggerHit t (addLabel e) = endTriggerHit t e := by
  unfold endTriggerHit
  rw [addLabel_type]

theorem itemImg_sanitize (item : QueueItem) : itemImg (sanitizeItem item) = none := by
  cases item <;> rfl

theorem scanPattern_no_match (now : Nat) (evt : Event)
    (acc : Option ActiveWorkflow × List QueueItem) (entry : String × Pattern)
    (h : startMatches entry.2 evt = false) : scanPattern now evt acc entry = acc := by
  simp [scanPattern, h]

theorem foldl_scan_no_match (now : Nat) (evt : Event) (ps : List (String × Pattern))
    (acc : Option ActiveWorkflow × List QueueItem)
    (h : ∀ p ∈ ps, startMatches p.2 evt = false) :
    ps.foldl (scanPattern now evt) acc = acc := by
  induction ps generalizing acc with
  | nil => rfl
  | cons p rest ih =>
      rw [List.foldl_cons, scanPattern_no_match now evt acc p (h p (by simp))]
      exact ih acc (fun e he => h e (by simp [he]))

theorem scanPattern_recent (now : Nat) (evt : Event) (w : ActiveWorkflow)
    (q : List QueueItem) (entry : String × Pattern)
    (h : ¬ (now - w.lastEventTime > 5000)) :
    scanPattern now evt (some w, q) entry = (some w, q) := by
  unfold scanPattern
  split
  · simp [h]
  · rfl

theorem foldl_scan_recent (now : Nat) (evt : Event) (ps : List (String × Pattern))
    (w : ActiveWorkflow) (q : List QueueItem)
    (h : ¬ (now - w.lastEventTime > 5000)) :
    ps.foldl (scanPattern now evt) (some w, q) = (some w, q) := by
  induction ps with
  | nil => rfl
  | cons p rest ih => rw [List.foldl_cons, scanPattern_recent now evt w q p h]; exact ih

theorem patternFor_mem :
    ∀ e ∈ WORKFLOW_PATTERNS, patternFor e.1 = some e.2 := by decide

theorem start_end_disjoint :
    ∀ e ∈ WORKFLOW_PATTERNS, ∀ s ∈ e.2.startTriggers,
      e.2.endTriggers.contains s = false := by decide

/-- The pattern loop changes the queue by at most one workflow record; when it
does, the loop ends with a freshly started workflow for a matching pattern. -/
theorem foldl_scan_shape (now : Nat) (evt : Event) (ps : List (String × Pattern))
    (cw : Option ActiveWorkflow) (q : List QueueItem) :
    ∃ recs, (ps.foldl (scanPattern now evt) (cw, q)).2 = q ++ recs ∧
      (recs = [] ∨ ∃ w entry, recs = [QueueItem.wf (workflowRecordOf w)] ∧
        entry ∈ ps ∧ startMatches entry.2 evt = true ∧
        (ps.foldl (scanPattern now evt) (cw, q)).1 = some (freshWorkflow now entry.1 evt)) := by
  induction ps generalizing cw q with
  | nil => exact ⟨[], by simp, Or.inl rfl⟩
  | cons entry rest ih =>
      rw [List.foldl_cons]
      by_cases hm : startMatches entry.2 evt
      · cases cw with
        | none =>
            have hstep : scanPattern now evt (none, q) entry =
                (some (freshWorkflow now entry.1 evt), q) := by
              simp [scanPattern, hm]
            rw [hstep, foldl_scan_recent now evt rest (freshWorkflow now entry.1 evt) q
              (by simp [freshWorkflow])]
            exact ⟨[], by simp, Or.inl rfl⟩
        | some w =>
            by_cases hg : now - w.lastEventTime > 5000
            · by_cases hs : w.steps.length > 0
              · have hstep : scanPattern now evt (some w, q) entry =
                    (some (freshWorkflow now entry.1 evt),
                     q ++ [QueueItem.wf (workflowRecordOf w)]) := by
                  simp [scanPattern, hm, hg, finishWorkflow, hs]
                rw [hstep, foldl_scan_recent now evt rest (freshWorkflow now entry.1 evt) _
                  (by simp [freshWorkflow])]
                exact ⟨[QueueItem.wf (workflowRecordOf w)], rfl,
                  Or.inr ⟨w, entry, rfl, by simp, hm, rfl⟩⟩
              · have hstep : scanPattern now evt (some w, q) entry = (some w, q) := by
                  simp [scanPattern, hm, hg, finishWorkflow, hs]
                rw [hstep]
                obtain ⟨recs, h1, h2⟩ := ih (some w) q
                refine ⟨recs, h1, ?_⟩
                rcases h2 with h2 | ⟨w', e', hr, he, hsm, hcw⟩
                · exact Or.inl h2
                · exact Or.inr ⟨w', e', hr, by simp [he], hsm, hcw⟩
            · rw [scanPattern_recent now evt w q entry hg]
              obtain ⟨recs, h1, h2⟩ := ih (some w) q
              refine ⟨recs, h1, ?_⟩
              rcases h2 with h2 | ⟨w', e', hr, he, hsm, hcw⟩
              · exact Or.inl h2
              · exact Or.inr ⟨w', e', hr, by simp [he], hsm, hcw⟩
      · rw [scanPattern_no_match now evt (cw, q) entry (by simpa using hm)]
        obtain ⟨recs, h1, h2⟩ := ih cw q
        refine ⟨recs, h1, ?_⟩
        rcases h2 with h2 | ⟨w', e', hr, he, hsm, hcw⟩
        · exact Or.inl h2
        · exact Or.inr ⟨w', e', hr, by simp [he], hsm, hcw⟩

/-- updateWorkflow appends at most one workflow record to the queue and
otherwise leaves it untouched. -/
theorem updateWorkflow_queue_shape (now : Nat) (evt : Event) (st : CoordState) :
    ∃ recs, (updateWorkflow now evt st).queue = st.queue ++ recs ∧
      recs.length ≤ 1 ∧ ∀ r ∈ recs, ∃ w, r = QueueItem.wf w := by
  obtain ⟨recs, h1, h2⟩ :=
    foldl_scan_shape now evt WORKFLOW_PATTERNS st.currentWorkflow st.queue
  rcases hfold : WORKFLOW_PATTERNS.foldl (scanPattern now evt)
      (st.currentWorkflow, st.queue) with ⟨cw1, q1⟩
  rw [hfold] at h1 h2
  simp only at h1 h2
  unfold updateWorkflow
  rw [hfold]
  subst h1
  cases cw1 with
  | none =>
      rcases h2 with h2 | ⟨w', e', hr, _, _, hcw⟩
      · subst h2
        exact ⟨[], by simp, by simp, by simp⟩
      · exact absurd hcw (by simp)
  | some w =>
      by_cases hend : endTriggerHit w.type evt = true
      · rcases h2 with h2 | ⟨w', e', hr, he, hsm, hcw⟩
        · subst h2
          refine ⟨[QueueItem.wf (workflowRecordOf
            { w with steps := w.steps ++ [mkStep now evt], lastEventTime := now })],
            ?_, by simp, by simp⟩
          simp [hend, finishWorkflow]
        · have hw : w = freshWorkflow now e'.1 evt := Option.some.inj hcw
          have htype : w.type = e'.1 := by rw [hw]; rfl
          have hpf : patternFor e'.1 = some e'.2 := patternFor_mem e' he
          have hstypes : evt.type ∈ e'.2.startTriggers := by
            unfold startMatches at hsm
            have hc : e'.2.startTriggers.contains evt.type = true :=
              ((Bool.and_eq_true _ _).mp hsm).1
            simpa using hc
          have hdisj : e'.2.endTriggers.contains evt.type = false :=
            start_end_disjoint e' he evt.type hstypes
          rw [htype] at hend
          unfold endTriggerHit at hend
          rw [hpf] at hend
          have hnot : ¬ (evt.type ∈ e'.2.endTriggers) := by simpa using hdisj
          simp at hend
          exact absurd hend hnot
      · rcases h2 with h2 | ⟨w', e', hr, _, hsm, _⟩
        · subst h2
          exact ⟨[], by simp [hend], by simp, by simp⟩
        · subst hr
          exact ⟨[QueueItem.wf (workflowRecordOf w')], by simp [hend], by simp, by simp⟩

/-! Claim theorems. -/

/-- Claim C1 (amended): processing an event always appends the raw event to
the queue; when the classifier just completed a workflow on the event, one
workflow record is appended additionally, right before the raw event — at
most one record, and never the record instead of the raw event. -/
theorem enqueue_appends_raw_event (now : Nat) (evt : Event) (st : CoordState) :
    ∃ recs, (enqueueEvent now evt st).queue =
        st.queue ++ recs ++ [QueueItem.ev (addLabel evt)] ∧
      recs.length ≤ 1 ∧ ∀ r ∈ recs, ∃ w, r = QueueItem.wf w := by
  obtain ⟨recs, h1, h2, h3⟩ := updateWorkflow_queue_shape now (addLabel evt) st
  refine ⟨recs, ?_, h2, h3⟩
  unfold enqueueEvent
  simp only [h1, List.append_assoc]

/-- Claim C1 (counterexample): a change event that completes a FIELD_UPDATE
workflow makes handleEvent append two queue entries — the workflow record and
the raw event — so the queue grows from 1 to 3 on a single event. -/
theorem handleEvent_appends_two_entries :
    (handleEvent 100 true eSelect ⟨[], none⟩).1.queue.length = 1 ∧
    (handleEvent 200 true eChange
        (handleEvent 100 true eSelect ⟨[], none⟩).1).1.queue.length = 3 ∧
    ((handleEvent 200 true eChange (handleEvent 100 true eSelect ⟨[], none⟩).1).1.queue.filter
        (fun i => match i with | QueueItem.ev _ => true | QueueItem.wf _ => false)).length = 2 ∧
    ((handleEvent 200 true eChange (handleEvent 100 true eSelect ⟨[], none⟩).1).1.queue.filter
        (fun i => match i with | QueueItem.ev _ => false | QueueItem.wf _ => true)).length = 1 := by
  decide

/-- Ingesting events that trigger nothing from an idle classifier just
appends the labelled raw events, with no flush, as long as the queue stays
below MAX_BATCH_SIZE. -/
theorem runEvents_no_trigger_aux (l : List (Nat × Event)) (q : List QueueItem)
    (hlen : q.length + l.length < MAX_BATCH_SIZE)
    (hl : ∀ te ∈ l, te.2.type ≠ "screenshot" ∧
      ∀ p ∈ WORKFLOW_PATTERNS, startMatches p.2 te.2 = false) :
    runEvents l ⟨q, none⟩ =
      (⟨q ++ l.map (fun te => QueueItem.ev (addLabel te.2)), none⟩, 0, []) := by
  induction l generalizing q with
  | nil => simp [runEvents]
  | cons te rest ih =>
      obtain ⟨hshot, hnosm⟩ := hl te (by simp)
      simp only [List.length_cons] at hlen
      have hupd : updateWorkflow te.1 (addLabel te.2) ⟨q, none⟩ = ⟨q, none⟩ := by
        unfold updateWorkflow
        rw [foldl_scan_no_match te.1 (addLabel te.2) WORKFLOW_PATTERNS (none, q)
          (fun p hp => by rw [startMatches_addLabel]; exact hnosm p hp)]
      have henq : enqueueEvent te.1 te.2 ⟨q, none⟩ =
          ⟨q ++ [QueueItem.ev (addLabel te.2)], none⟩ := by
        simp only [enqueueEvent]
        rw [hupd]
      have hlen1 : ¬ (MAX_BATCH_SIZE ≤ (q ++ [QueueItem.ev (addLabel te.2)]).length) := by
        simp only [List.length_append, List.length_cons, List.length_nil]
        omega
      have htype : ¬ ((addLabel te.2).type = "screenshot") := by
        rw [addLabel_type]; exact hshot
      have hhandle : handleEvent te.1 true te.2 ⟨q, none⟩ =
          (⟨q ++ [QueueItem.ev (addLabel te.2)], none⟩, ⟨false, none⟩) := by
        unfold handleEvent
        rw [henq]
        simp [hlen1, htype]
        omega
      show runEvents (te :: rest) ⟨q, none⟩ = _
      unfold runEvents
      rw [hhandle]
      simp only
      rw [ih (q ++ [QueueItem.ev (addLabel te.2)])
        (by simp only [List.length_append, List.length_cons, List.length_nil]; omega)
        (fun e he => hl e (by simp [he]))]
      simp

/-- Claim C2 (amended): for any sequence of N ingested events with
N < MAX_BATCH_SIZE, none carrying an image payload (screenshot type) and none
matching any workflow pattern start condition — so the classifier never emits
a workflow record — ingestion from an empty, idle coordinator leaves the
queue holding exactly the N events and performs no flush. -/
theorem runEvents_no_trigger (l : List (Nat × Event))
    (hlen : l.length < MAX_BATCH_SIZE)
    (hl : ∀ te ∈ l, te.2.type ≠ "screenshot" ∧
      ∀ p ∈ WORKFLOW_PATTERNS, startMatches p.2 te.2 = false) :
    runEvents l ⟨[], none⟩ =
      (⟨l.map (fun te => QueueItem.ev (addLabel te.2)), none⟩, 0, []) := by
  have := runEvents_no_trigger_aux l [] (by simpa using hlen) hl
  simpa using this

/-- Claim C2 witness: one plain click ingested from the empty state. -/
theorem runEvents_no_trigger_witness :
    runEvents [(0, eClickDiv)] ⟨[], none⟩ =
      (⟨[(0, eClickDiv)].map (fun te => QueueItem.ev (addLabel te.2)), none⟩, 0, []) :=
  runEvents_no_trigger [(0, eClickDiv)] (by decide) (by decide)

/-- Claim C2 (counterexample): two non-image events whose second completes a
workflow leave the queue at length 3, not N = 2, though no flush occurs. -/
theorem ingest_two_events_queue_three :
    eSelect.type ≠ "screenshot" ∧ eChange.type ≠ "screenshot" ∧
    eSelect.imgBase64 = none ∧ eChange.imgBase64 = none ∧
    [(100, eSelect), (200, eChange)].length = 2 ∧ 2 < MAX_BATCH_SIZE ∧
    (runEvents [(100, eSelect), (200, eChange)] ⟨[], none⟩).1.queue.length = 3 ∧
    (runEvents [(100, eSelect), (200, eChange)] ⟨[], none⟩).2.1 = 0 := by
  decide

/-- Claim C3: ingesting any screenshot (image-bearing) event triggers exactly
one flush in that handleEvent call, whatever the queue length, and the queue
is empty afterwards. -/
theorem screenshot_triggers_flush (now : Nat) (st : CoordState) (evt : Event)
    (h : evt.type = "screenshot") :
    (handleEvent now true evt st).2.attempted = true ∧
    (handleEvent now true evt st).2.persisted.isSome = true ∧
    (handleEvent now true evt st).1.queue = [] := by
  have htype : (addLabel evt).type = "screenshot" := by rw [addLabel_type]; exact h
  unfold handleEvent
  simp [htype]

/-- Claim C3 witness: a screenshot event on a non-empty queue flushes it. -/
theorem screenshot_triggers_flush_witness :
    (handleEvent 500 true eShot ⟨[QueueItem.ev eClickDiv], none⟩).2.attempted = true ∧
    (handleEvent 500 true eShot ⟨[QueueItem.ev eClickDiv], none⟩).2.persisted.isSome = true ∧
    (handleEvent 500 true eShot ⟨[QueueItem.ev eClickDiv], none⟩).1.queue = [] :=
  screenshot_triggers_flush 500 ⟨[QueueItem.ev eClickDiv], none⟩ eShot rfl

/-- The active workflow after quietly absorbing a sequence of events as steps. -/
def accumWorkflow (w : ActiveWorkflow) (l : List (Nat × Event)) : ActiveWorkflow :=
  { w with steps := w.steps ++ l.map (fun te => mkStep te.1 te.2)
           lastEventTime := (l.map Prod.fst).getLastD w.lastEventTime }

theorem scanPattern_force (now : Nat) (evt : Event) (w : ActiveWorkflow)
    (q : List QueueItem) (entry : String × Pattern)
    (hm : startMatches entry.2 evt = true) (hg : now - w.lastEventTime > 5000)
    (hs : w.steps ≠ []) :
    scanPattern now evt (some w, q) entry =
      (some (freshWorkflow now entry.1 evt),
       q ++ [QueueItem.wf (workflowRecordOf w)]) := by
  have hlen : w.steps.length > 0 := List.length_pos.mpr hs
  simp [scanPattern, hm, hg, finishWorkflow, hlen]

/-- An event matching no start trigger, and not the active pattern's end
trigger, is appended as a step and the workflow stays active. -/
theorem updateWorkflow_no_match_active (now : Nat) (evt : Event)
    (q : List QueueItem) (w : ActiveWorkflow)
    (hns : ∀ p ∈ WORKFLOW_PATTERNS, startMatches p.2 evt = false)
    (he : endTriggerHit w.type evt = false) :
    updateWorkflow now evt ⟨q, some w⟩ =
      ⟨q, some { w with steps := w.steps ++ [mkStep now evt], lastEventTime := now }⟩ := by
  unfold updateWorkflow
  rw [foldl_scan_no_match now evt WORKFLOW_PATTERNS (some w, q) hns]
  simp [he]

/-- Quiet phase: a workflow stays active through any sequence of events that
match no start trigger and no end trigger of the active pattern, absorbing
each as a step, with the queue untouched. -/
theorem updateMany_quiet (l : List (Nat × Event)) (q : List QueueItem)
    (w : ActiveWorkflow)
    (hl : ∀ te ∈ l, (∀ p ∈ WORKFLOW_PATTERNS, startMatches p.2 te.2 = false) ∧
      endTriggerHit w.type te.2 = false) :
    updateMany l ⟨q, some w⟩ = ⟨q, some (accumWorkflow w l)⟩ := by
  induction l generalizing w with
  | nil => simp [updateMany, accumWorkflow]
  | cons te rest ih =>
      obtain ⟨hns, he⟩ := hl te (by simp)
      have hstep := updateWorkflow_no_match_active te.1 te.2 q w hns he
      show updateMany (te :: rest) ⟨q, some w⟩ = _
      unfold updateMany
      rw [List.foldl_cons]
      show updateMany rest (updateWorkflow te.1 te.2 ⟨q, some w⟩) = _
      rw [hstep]
      rw [ih { w with steps := w.steps ++ [mkStep te.1 te.2], lastEventTime := te.1 }
        (fun e hee => hl e (by simp [hee]))]
      unfold accumWorkflow
      simp only [List.map_cons, List.getLastD_cons, List.append_assoc, List.singleton_append]

/-- Force-finish: a start-trigger match against a stale active workflow (gap
strictly over 5000 ms) pushes exactly one workflow record with all
accumulated steps and restarts under the matching pattern with the new event
as step 1. -/
theorem updateWorkflow_force_finish_step (now : Nat) (e' : Event)
    (q : List QueueItem) (w : ActiveWorkflow)
    (hsteps : w.steps ≠ []) (hg : now - w.lastEventTime > 5000)
    (entry : String × Pattern) (hmem : entry ∈ WORKFLOW_PATTERNS)
    (hsm : startMatches entry.2 e' = true) :
    updateWorkflow now e' ⟨q, some w⟩ =
      ⟨q ++ [QueueItem.wf (workflowRecordOf w)],
       some { type := entry.1
              target := optStrOr (e'.fieldDetails.map (fun fd => fd.fieldLabel)) e'.identifier
              steps := [mkStep now e']
              startTime := now
              lastEventTime := now }⟩ := by
  have hfreshg : ∀ t : String, ¬ (now - (freshWorkflow now t e').lastEventTime > 5000) := by
    intro t
    simp [freshWorkflow]
  have hpair := (Bool.and_eq_true _ _).mp hsm
  fin_cases hmem
  · -- FIELD_UPDATE
    have htype : e'.type = "select" ∨ e'.type = "click" := by
      have := hpair.1
      simpa using this
    have hend : endTriggerHit "FIELD_UPDATE" e' = false := by
      unfold endTriggerHit
      rcases htype with h | h <;> rw [h] <;> decide
    unfold updateWorkflow
    simp only [WORKFLOW_PATTERNS, List.foldl_cons, List.foldl_nil]
    rw [scanPattern_force now e' w q _ hsm hg hsteps]
    rw [scanPattern_recent now e' _ _ _ (hfreshg _)]
    rw [scanPattern_recent now e' _ _ _ (hfreshg _)]
    simp [freshWorkflow, hend]
  · -- FORM_SUBMISSION
    have htype : e'.type = "change" := by
      have := hpair.1
      simpa using this
    have helem : e'.elementType = "form" := by
      have := hpair.2
      simpa using this
    have hm1 : startMatches ⟨"Field Update", ["select", "click"], ["change"],
        ["select", "input", "textarea"]⟩ e' = false := by
      unfold startMatches
      rw [htype, helem]
      decide
    have hend : endTriggerHit "FORM_SUBMISSION" e' = false := by
      unfold endTriggerHit
      rw [htype]
      decide
    unfold updateWorkflow
    simp only [WORKFLOW_PATTERNS, List.foldl_cons, List.foldl_nil]
    rw [scanPattern_no_match now e' (some w, q) _ hm1]
    rw [scanPattern_force now e' w q _ hsm hg hsteps]
    rw [scanPattern_recent now e' _ _ _ (hfreshg _)]
    simp [freshWorkflow, hend]
  · -- NAVIGATION
    have htype : e'.type = "click" := by
      have := hpair.1
      simpa using this
    have helem : e'.elementType = "a" ∨ e'.elementType = "button" := by
      have := hpair.2
      simpa using this
    have hm1 : startMatches ⟨"Field Update", ["select", "click"], ["change"],
        ["select", "input", "textarea"]⟩ e' = false := by
      unfold startMatches
      rcases helem with h | h <;> rw [htype, h] <;> decide
    have hm2 : startMatches ⟨"Form Submission", ["change"], ["submit"], ["form"]⟩ e' = false := by
      unfold startMatches
      rcases helem with h | h <;> rw [htype, h] <;> decide
    have hend : endTriggerHit "NAVIGATION" e' = false := by
      unfold endTriggerHit
      rw [htype]
      decide
    unfold updateWorkflow
    simp only [WORKFLOW_PATTERNS, List.foldl_cons, List.foldl_nil]
    rw [scanPattern_no_match now e' (some w, q) _ hm1]
    rw [scanPattern_no_match now e' (some w, q) _ hm2]
    rw [scanPattern_force now e' w q _ hsm hg hsteps]
    simp [freshWorkflow, hend]

set_option linter.unusedVariables false in
/-- Claim C4: a workflow made active and never given its end trigger stays
active through any number of non-start-trigger events, for any elapsed time,
accumulating them as steps with the queue untouched; the first later event
matching a different pattern's start condition with a gap over 5000 ms
force-finishes it, emitting exactly one workflow record holding every
accumulated step, and the new event restarts classification from idle,
becoming step 1 of a fresh workflow under the matching pattern. -/
theorem workflow_force_finish (st : CoordState) (w : ActiveWorkflow)
    (hcw : st.currentWorkflow = some w) (hsteps : w.steps ≠ [])
    (l : List (Nat × Event))
    (hl : ∀ te ∈ l, (∀ p ∈ WORKFLOW_PATTERNS, startMatches p.2 te.2 = false) ∧
      endTriggerHit w.type te.2 = false)
    (n : Nat) (e' : Event) (entry : String × Pattern)
    (hmem : entry ∈ WORKFLOW_PATTERNS) (hsm : startMatches entry.2 e' = true)
    (hdiff : entry.1 ≠ w.type)
    (hgap : n - (accumWorkflow w l).lastEventTime > 5000) :
    updateMany l st = ⟨st.queue, some (accumWorkflow w l)⟩ ∧
    updateWorkflow n e' (updateMany l st) =
      ⟨st.queue ++ [QueueItem.wf (workflowRecordOf (accumWorkflow w l))],
       some { type := entry.1
              target := optStrOr (e'.fieldDetails.map (fun fd => fd.fieldLabel)) e'.identifier
              steps := [mkStep n e']
              startTime := n
              lastEventTime := n }⟩ := by
  obtain ⟨qs, cws⟩ := st
  simp only at hcw
  subst hcw
  have hquiet := updateMany_quiet l qs w hl
  refine ⟨hquiet, ?_⟩
  rw [hquiet]
  have haccsteps : (accumWorkflow w l).steps ≠ [] := by
    unfold accumWorkflow
    simp only
    intro hcontra
    exact hsteps (List.append_eq_nil.mp hcontra).1
  exact updateWorkflow_force_finish_step n e' qs (accumWorkflow w l)
    haccsteps hgap entry hmem hsm

/-- An active FIELD_UPDATE workflow holding one step, used by witnesses. -/
def w0 : ActiveWorkflow :=
  { type := "FIELD_UPDATE", target := "country", steps := [mkStep 100 eSelect]
    startTime := 100, lastEventTime := 100 }

/-- Claim C4 witness: a FIELD_UPDATE workflow absorbs a focus event, then a
navigation click 9000 ms later force-finishes it. -/
theorem workflow_force_finish_witness :
    updateMany [(1000, eFocusDiv)] ⟨[], some w0⟩ =
      ⟨[], some (accumWorkflow w0 [(1000, eFocusDiv)])⟩ ∧
    updateWorkflow 10000 eNavClick (updateMany [(1000, eFocusDiv)] ⟨[], some w0⟩) =
      ⟨[] ++ [QueueItem.wf (workflowRecordOf (accumWorkflow w0 [(1000, eFocusDiv)]))],
       some { type := "NAVIGATION"
              target := optStrOr (eNavClick.fieldDetails.map (fun fd => fd.fieldLabel))
                eNavClick.identifier
              steps := [mkStep 10000 eNavClick]
              startTime := 10000
              lastEventTime := 10000 }⟩ :=
  workflow_force_finish ⟨[], some w0⟩ w0 rfl (by decide) [(1000, eFocusDiv)]
    (by decide) 10000 eNavClick
    ("NAVIGATION", ⟨"Navigation", ["click"], ["navigation"], ["a", "button"]⟩)
    (by decide) (by decide) (by decide) (by decide)

/-! Association-table lemmas for the pending table and the caches. -/

theorem tblLookup_eq_none_of_not_mem {α : Type} (m : List (String × α)) (k : String)
    (h : k ∉ m.map Prod.fst) : tblLookup m k = none := by
  induction m with
  | nil => rfl
  | cons kv rest ih =>
      simp only [List.map_cons, List.mem_cons] at h
      push_neg at h
      unfold tblLookup
      rw [if_neg (Ne.symm h.1)]
      exact ih h.2

theorem tblLookup_isSome_of_mem {α : Type} (m : List (String × α)) (k : String)
    (h : k ∈ m.map Prod.fst) : (tblLookup m k).isSome := by
  induction m with
  | nil => simp at h
  | cons kv rest ih =>
      unfold tblLookup
      by_cases hk : kv.1 = k
      · rw [if_pos hk]
        simp
      · rw [if_neg hk]
        apply ih
        simp only [List.map_cons, List.mem_cons] at h
        rcases h with h | h
        · exact absurd h.symm hk
        · exact h

theorem mem_of_tblLookup_isSome {α : Type} (m : List (String × α)) (k : String)
    (h : (tblLookup m k).isSome) : k ∈ m.map Prod.fst := by
  induction m with
  | nil => simp [tblLookup] at h
  | cons kv rest ih =>
      unfold tblLookup at h
      by_cases hk : kv.1 = k
      · simp [hk]
      · rw [if_neg hk] at h
        simp [ih h]

theorem tblDelete_keys_sub {α : Type} (m : List (String × α)) (k k' : String)
    (h : k' ∈ (tblDelete m k).map Prod.fst) : k' ∈ m.map Prod.fst := by
  induction m with
  | nil => exact absurd h (by simp [tblDelete])
  | cons kv rest ih =>
      unfold tblDelete at h
      by_cases hk : kv.1 = k
      · rw [if_pos hk] at h
        simp [h]
      · rw [if_neg hk] at h
        simp only [List.map_cons, List.mem_cons] at h ⊢
        rcases h with h | h
        · exact Or.inl h
        · exact Or.inr (ih h)

theorem tblDelete_nodup {α : Type} (m : List (String × α)) (k : String)
    (h : (m.map Prod.fst).Nodup) : ((tblDelete m k).map Prod.fst).Nodup := by
  induction m with
  | nil => exact List.nodup_nil
  | cons kv rest ih =>
      simp only [List.map_cons, List.nodup_cons] at h
      unfold tblDelete
      by_cases hk : kv.1 = k
      · rw [if_pos hk]
        exact h.2
      · rw [if_neg hk]
        simp only [List.map_cons, List.nodup_cons]
        exact ⟨fun hc => h.1 (tblDelete_keys_sub rest k kv.1 hc), ih h.2⟩

theorem tblLookup_delete_self {α : Type} (m : List (String × α)) (k : String)
    (h : (m.map Prod.fst).Nodup) : tblLookup (tblDelete m k) k = none := by
  induction m with
  | nil => rfl
  | cons kv rest ih =>
      simp only [List.map_cons, List.nodup_cons] at h
      unfold tblDelete
      by_cases hk : kv.1 = k
      · rw [if_pos hk]
        apply tblLookup_eq_none_of_not_mem
        rw [← hk]
        exact h.1
      · rw [if_neg hk]
        unfold tblLookup
        rw [if_neg hk]
        exact ih h.2

/-- Deliveries for a fixed id are bounded by its presence in the table. -/
theorem routeAll_count (rs : List Reply) (pending : List (String × Nat)) (X : String)
    (hnd : (pending.map Prod.fst).Nodup) :
    ((routeAll pending rs).2.filter (fun d => d.2.id = X)).length ≤
      (if (tblLookup pending X).isSome then 1 else 0) := by
  induction rs generalizing pending with
  | nil =>
      simp only [routeAll, List.filter_nil, List.length_nil]
      split <;> simp
  | cons r rest ih =>
      unfold routeAll routeResponse
      cases hl : tblLookup pending r.id with
      | none =>
          simp only
          have := ih pending hnd
          simpa using this
      | some port =>
          simp only
          by_cases hx : r.id = X
          · subst hx
            have hnone : tblLookup (tblDelete pending r.id) r.id = none :=
              tblLookup_delete_self pending r.id hnd
            have hrest := ih (tblDelete pending r.id) (tblDelete_nodup pending r.id hnd)
            rw [hnone] at hrest
            simp only [Option.isSome_none, Bool.false_eq_true, if_false,
              Nat.le_zero] at hrest
            simp [hl, hrest]
          · have hrest := ih (tblDelete pending r.id) (tblDelete_nodup pending r.id hnd)
            simp only [List.filter_append, List.length_append]
            have hdel : (List.filter (fun d => d.2.id = X) [(port, r)]).length = 0 := by
              simp [hx]
            rw [hdel]
            simp only [Nat.zero_add]
            rcases hsx : tblLookup pending X with _ | v
            · have hX : X ∉ pending.map Prod.fst := by
                intro hc
                have := tblLookup_isSome_of_mem pending X hc
                rw [hsx] at this
                simp at this
              have hsx' : tblLookup (tblDelete pending r.id) X = none :=
                tblLookup_eq_none_of_not_mem _ X
                  (fun hc => hX (tblDelete_keys_sub pending r.id X hc))
              rw [hsx'] at hrest
              simpa using hrest
            · have hle : ((routeAll (tblDelete pending r.id) rest).2.filter
                  (fun d => d.2.id = X)).length ≤ 1 := by
                refine le_trans hrest ?_
                split <;> simp
              simpa using hle

/-- Claim C5: a reply whose id is pending is forwarded verbatim to the
recorded channel and its entry removed; a reply whose id is not pending is
dropped; over any reply sequence, at most one delivery carries a given id. -/
theorem reply_delivered_at_most_once (pending : List (String × Nat))
    (hnd : (pending.map Prod.fst).Nodup) (rs : List Reply) (X : String) :
    ((routeAll pending rs).2.filter (fun d => d.2.id = X)).length ≤ 1 ∧
    (∀ r port, tblLookup pending r.id = some port →
      routeResponse pending r = (tblDelete pending r.id, some (port, r)) ∧
      tblLookup (routeResponse pending r).1 r.id = none) ∧
    (∀ r, tblLookup pending r.id = none → routeResponse pending r = (pending, none)) := by
  refine ⟨?_, ?_, ?_⟩
  · refine le_trans (routeAll_count rs pending X hnd) ?_
    split <;> simp
  · intro r port hr
    constructor
    · unfold routeResponse
      rw [hr]
    · unfold routeResponse
      rw [hr]
      exact tblLookup_delete_self pending r.id hnd
  · intro r hr
    unfold routeResponse
    rw [hr]

/-- Claim C5 witness: two replies with the same id against a one-entry
table; only the first is delivered. -/
theorem reply_delivered_at_most_once_witness :
    ((routeAll [("a", 1)] [⟨"a", "r1"⟩, ⟨"a", "r2"⟩]).2.filter
        (fun d => d.2.id = "a")).length ≤ 1 ∧
    (∀ r port, tblLookup [("a", 1)] r.id = some port →
      routeResponse [("a", 1)] r = (tblDelete [("a", 1)] r.id, some (port, r)) ∧
      tblLookup (routeResponse [("a", 1)] r).1 r.id = none) ∧
    (∀ r, tblLookup [("a", 1)] r.id = none → routeResponse [("a", 1)] r = ([("a", 1)], none)) :=
  reply_delivered_at_most_once [("a", 1)] (by decide) [⟨"a", "r1"⟩, ⟨"a", "r2"⟩] "a"

theorem tblSet_fresh {α : Type} (m : List (String × α)) (k : String) (v : α)
    (h : k ∉ m.map Prod.fst) : tblSet m k v = m ++ [(k, v)] := by
  induction m with
  | nil => rfl
  | cons kv rest ih =>
      simp only [List.map_cons, List.mem_cons] at h
      push_neg at h
      unfold tblSet
      rw [if_neg (Ne.symm h.1)]
      rw [ih h.2]
      simp

theorem tblSet_length_le {α : Type} (m : List (String × α)) (k : String) (v : α) :
    (tblSet m k v).length ≤ m.length + 1 := by
  induction m with
  | nil => simp [tblSet]
  | cons kv rest ih =>
      unfold tblSet
      split
      · simp
      · simpa using Nat.succ_le_succ ih

/-- An insertion never leaves the cache above its capacity. -/
theorem cachePut_length_le {α : Type} (cap : Nat) (c : List (String × α))
    (k : String) (v : α) (h : c.length ≤ cap) : (cachePut cap c k v).length ≤ cap := by
  simp only [cachePut]
  have hm : (tblSet c k v).length ≤ c.length + 1 := tblSet_length_le c k v
  split
  · rename_i hover
    cases hset : tblSet c k v with
    | nil => simp
    | cons kv t =>
        unfold tblDelete
        rw [if_pos rfl]
        rw [hset] at hm hover
        simp only [List.length_cons] at hm hover
        omega
  · rename_i hunder
    omega

theorem map_fst_pairs (v : String → String) (l : List String) :
    (l.map (fun k => (k, v k))).map Prod.fst = l := by
  induction l with
  | nil => rfl
  | cons k rest ih => rw [List.map_cons, List.map_cons, ih]

/-- Filling a cache with fresh distinct keys within capacity just appends. -/
theorem cacheFill (cap : Nat) (v : String → String) (ks : List String) :
    ∀ (m : List (String × String)), (m.map Prod.fst ++ ks).Nodup →
      m.length + ks.length ≤ cap →
      ks.foldl (fun c k => cachePut cap c k (v k)) m =
        m ++ ks.map (fun k => (k, v k)) := by
  induction ks with
  | nil =>
      intro m _ _
      simp
  | cons k rest ih =>
      intro m hnd hlen
      have hknotm : k ∉ m.map Prod.fst := by
        intro hc
        exact (List.nodup_append.mp hnd).2.2 hc (by simp)
      have hset : tblSet m k (v k) = m ++ [(k, v k)] :=
        tblSet_fresh m k (v k) hknotm
      simp only [List.length_cons] at hlen
      have hput : cachePut cap m k (v k) = m ++ [(k, v k)] := by
        unfold cachePut
        rw [hset]
        rw [if_neg (by simp; omega)]
      rw [List.foldl_cons, hput, ih (m ++ [(k, v k)])
        (by simpa [List.append_assoc] using hnd)
        (by simp; omega)]
      simp

/-- Claim C6: a bounded worker cache of capacity cap, filled with cap + 1
distinct keys, evicts exactly the first-inserted key — reads never reorder
entries (FIFO, not LRU) — the evicted key then misses, and an insertion never
leaves the cache above capacity. -/
theorem cache_fifo_eviction (cap : Nat) (hcap : 0 < cap) (k0 : String)
    (ks : List String) (v : String → String)
    (hnd : (k0 :: ks).Nodup) (hlen : ks.length = cap) :
    tblLookup ((k0 :: ks).foldl (fun c k => cachePut cap c k (v k)) []) k0 = none ∧
    ((k0 :: ks).foldl (fun c k => cachePut cap c k (v k)) []).map Prod.fst = ks ∧
    ((k0 :: ks).foldl (fun c k => cachePut cap c k (v k)) []).length = cap ∧
    (∀ (c : List (String × String)) k' v', c.length ≤ cap →
      (cachePut cap c k' v').length ≤ cap) := by
  have hks : ks ≠ [] := by
    intro h
    rw [h] at hlen
    simp at hlen
    omega
  have hsplit : ks.dropLast ++ [ks.getLast hks] = ks :=
    List.dropLast_append_getLast hks
  have hdllen : ks.dropLast.length = cap - 1 := by
    rw [List.length_dropLast, hlen]
  have hcons : k0 :: ks = (k0 :: ks.dropLast) ++ [ks.getLast hks] := by
    rw [List.cons_append, hsplit]
  have hnd' : ((k0 :: ks.dropLast) ++ [ks.getLast hks]).Nodup := by
    rw [← hcons]
    exact hnd
  have hfold : (k0 :: ks).foldl (fun c k => cachePut cap c k (v k)) [] =
      List.foldl (fun c k => cachePut cap c k (v k))
        (List.foldl (fun c k => cachePut cap c k (v k)) [] (k0 :: ks.dropLast))
        [ks.getLast hks] := by
    rw [hcons, List.foldl_append]
  have hc1 : List.foldl (fun c k => cachePut cap c k (v k)) [] (k0 :: ks.dropLast) =
      (k0 :: ks.dropLast).map (fun k => (k, v k)) := by
    have := cacheFill cap v (k0 :: ks.dropLast) []
      (by simpa using (List.nodup_append.mp hnd').1)
      (by simp [hdllen]; omega)
    simpa only [List.nil_append] using this
  have hkeys1 : ((k0 :: ks.dropLast).map (fun k => (k, v k))).map Prod.fst =
      k0 :: ks.dropLast := map_fst_pairs v (k0 :: ks.dropLast)
  have hLnot : ks.getLast hks ∉ (k0 :: ks.dropLast) := by
    intro hc
    exact (List.nodup_append.mp hnd').2.2 hc (by simp)
  have hsetL : tblSet ((k0 :: ks.dropLast).map (fun k => (k, v k)))
      (ks.getLast hks) (v (ks.getLast hks)) =
      (k0 :: ks.dropLast).map (fun k => (k, v k)) ++
        [(ks.getLast hks, v (ks.getLast hks))] := by
    apply tblSet_fresh
    rw [hkeys1]
    exact hLnot
  have hF : (k0 :: ks).foldl (fun c k => cachePut cap c k (v k)) [] =
      ks.map (fun k => (k, v k)) := by
    rw [hfold, hc1]
    show cachePut cap _ _ _ = _
    unfold cachePut
    rw [hsetL]
    rw [if_pos (by simp [hdllen]; omega)]
    simp only [List.map_cons, List.cons_append]
    unfold tblDelete
    rw [if_pos rfl]
    rw [show [(ks.getLast hks, v (ks.getLast hks))] =
      List.map (fun k => (k, v k)) [ks.getLast hks] from rfl]
    rw [← List.map_append, hsplit]
  refine ⟨?_, ?_, ?_, ?_⟩
  · rw [hF]
    apply tblLookup_eq_none_of_not_mem
    rw [map_fst_pairs]
    exact (List.nodup_cons.mp hnd).1
  · rw [hF, map_fst_pairs]
  · rw [hF]
    simp [hlen]
  · intro c k' v' hc
    exact cachePut_length_le cap c k' v' hc

/-- Claim C6 witness: capacity 2, inserting a, b, c evicts exactly a. -/
theorem cache_fifo_eviction_witness :
    tblLookup ((["a", "b", "c"] : List String).foldl
      (fun c k => cachePut 2 c k (String.append k k)) []) "a" = none ∧
    ((["a", "b", "c"] : List String).foldl
      (fun c k => cachePut 2 c k (String.append k k)) []).map Prod.fst = ["b", "c"] ∧
    ((["a", "b", "c"] : List String).foldl
      (fun c k => cachePut 2 c k (String.append k k)) []).length = 2 ∧
    (∀ (c : List (String × String)) k' v', c.length ≤ 2 →
      (cachePut 2 c k' v').length ≤ 2) :=
  cache_fifo_eviction 2 (by decide) "a" ["b", "c"]
    (fun k => String.append k k) (by decide) (by decide)

/-! Flush shape lemmas shared by the failure-handling and persistence claims. -/

theorem finishWorkflow_queue_shape (cw : Option ActiveWorkflow) (q : List QueueItem) :
    ∃ extra, (finishWorkflow (cw, q)).2 = q ++ extra := by
  cases cw with
  | none => exact ⟨[], by simp [finishWorkflow]⟩
  | some w =>
      by_cases hs : w.steps.length > 0
      · exact ⟨[QueueItem.wf (workflowRecordOf w)], by simp [finishWorkflow, hs]⟩
      · exact ⟨[], by simp [finishWorkflow, hs]⟩

theorem enqueueEvent_queue_split (now : Nat) (evt : Event) (st : CoordState) :
    ∃ recs, (enqueueEvent now evt st).queue =
        st.queue ++ recs ++ [QueueItem.ev (addLabel evt)] ∧
      recs.length ≤ 1 ∧ ∀ r ∈ recs, ∃ w, r = QueueItem.wf w := by
  obtain ⟨recs, h1, h2, h3⟩ := updateWorkflow_queue_shape now (addLabel evt) st
  refine ⟨recs, ?_, h2, h3⟩
  unfold enqueueEvent
  simp only [h1, List.append_assoc]

/-- A successful flush persists the prior queue contents (sanitized) as a
prefix of the stored events array. -/
theorem flush_persist_shape (n : Nat) (e : Event) (st : CoordState)
    (h : (handleEvent n true e st).2.attempted = true) :
    ∃ p rest2, (handleEvent n true e st).2.persisted = some p ∧
      p = st.queue.map sanitizeItem ++ rest2 := by
  obtain ⟨recs, hq, _, _⟩ := enqueueEvent_queue_split n e st
  obtain ⟨extra, hf⟩ := finishWorkflow_queue_shape
    (enqueueEvent n e st).currentWorkflow (enqueueEvent n e st).queue
  by_cases hcond : (decide (MAX_BATCH_SIZE ≤ (enqueueEvent n e st).queue.length) ||
      decide ((addLabel e).type = "screenshot")) = true
  · refine ⟨((enqueueEvent n e st).queue ++ extra).map sanitizeItem,
      ((recs ++ [QueueItem.ev (addLabel e)] ++ extra).map sanitizeItem), ?_, ?_⟩
    · simp only [handleEvent]
      rw [if_pos hcond]
      simp only [if_true, hf]
    · rw [hq]
      simp [List.map_append]
  · exfalso
    simp only [handleEvent] at h
    rw [if_neg hcond] at h
    simp at h

/-- Claim C7: when the store write of a flush fails, nothing is persisted and
nothing is lost — the old queue survives as a prefix with the new event still
present — and the next successful flush persists all of the retained data. -/
theorem failed_flush_retains_queue (now : Nat) (evt : Event) (st : CoordState)
    (h : (handleEvent now false evt st).2.attempted = true) :
    (handleEvent now false evt st).2.persisted = none ∧
    (∃ tail, (handleEvent now false evt st).1.queue = st.queue ++ tail ∧
      QueueItem.ev (addLabel evt) ∈ tail) ∧
    (∀ n2 e2,
      (handleEvent n2 true e2 (handleEvent now false evt st).1).2.attempted = true →
      ∃ p rest2,
        (handleEvent n2 true e2 (handleEvent now false evt st).1).2.persisted = some p ∧
        p = (handleEvent now false evt st).1.queue.map sanitizeItem ++ rest2) := by
  obtain ⟨recs, hq, _, _⟩ := enqueueEvent_queue_split now evt st
  obtain ⟨extra, hf⟩ := finishWorkflow_queue_shape
    (enqueueEvent now evt st).currentWorkflow (enqueueEvent now evt st).queue
  by_cases hcond : (decide (MAX_BATCH_SIZE ≤ (enqueueEvent now evt st).queue.length) ||
      decide ((addLabel evt).type = "screenshot")) = true
  · refine ⟨?_, ⟨recs ++ [QueueItem.ev (addLabel evt)] ++ extra, ?_, by simp⟩, ?_⟩
    · simp only [handleEvent]
      rw [if_pos hcond]
      simp
    · simp only [handleEvent]
      rw [if_pos hcond]
      simp only [Bool.false_eq_true, if_false]
      rw [hf, hq]
      simp [List.append_assoc]
    · intro n2 e2 h2
      exact flush_persist_shape n2 e2 (handleEvent now false evt st).1 h2
  · exfalso
    simp only [handleEvent] at h
    rw [if_neg hcond] at h
    simp at h

/-- Claim C7 witness: a failed flush on a screenshot event retains the event;
the data is persisted by the next successful (screenshot-triggered) flush. -/
theorem failed_flush_retains_queue_witness :
    (handleEvent 500 false eShot ⟨[], none⟩).2.persisted = none ∧
    (∃ tail, (handleEvent 500 false eShot ⟨[], none⟩).1.queue = [] ++ tail ∧
      QueueItem.ev (addLabel eShot) ∈ tail) ∧
    (∀ n2 e2,
      (handleEvent n2 true e2 (handleEvent 500 false eShot ⟨[], none⟩).1).2.attempted = true →
      ∃ p rest2,
        (handleEvent n2 true e2 (handleEvent 500 false eShot ⟨[], none⟩).1).2.persisted =
          some p ∧
        p = (handleEvent 500 false eShot ⟨[], none⟩).1.queue.map sanitizeItem ++ rest2) :=
  failed_flush_retains_queue 500 eShot ⟨[], none⟩ (by decide)

/-- Claim C8: every successful flush persists exactly the pre-write queue
mapped through sanitization — one entry per queued item, in order, with every
image payload nulled — and the concrete ten-plain-clicks scenario with
MAX_BATCH_SIZE = 10 yields exactly one flush persisting 10 image-free
entries and an empty queue. -/
theorem flush_sanitizes_events :
    (∀ now evt st p, (handleEvent now true evt st).2.persisted = some p →
      p = (finishWorkflow ((enqueueEvent now evt st).currentWorkflow,
            (enqueueEvent now evt st).queue)).2.map sanitizeItem ∧
      p.length = (finishWorkflow ((enqueueEvent now evt st).currentWorkflow,
            (enqueueEvent now evt st).queue)).2.length ∧
      ∀ item ∈ p, itemImg item = none) ∧
    ((runEvents tenClicks ⟨[], none⟩).2.1 = 1 ∧
     (runEvents tenClicks ⟨[], none⟩).2.2.map List.length = [10] ∧
     (∀ pp ∈ (runEvents tenClicks ⟨[], none⟩).2.2, ∀ item ∈ pp, itemImg item = none) ∧
     (runEvents tenClicks ⟨[], none⟩).1 = ⟨[], none⟩) := by
  constructor
  · intro now evt st p hp
    by_cases hcond : (decide (MAX_BATCH_SIZE ≤ (enqueueEvent now evt st).queue.length) ||
        decide ((addLabel evt).type = "screenshot")) = true
    · simp only [handleEvent] at hp
      rw [if_pos hcond] at hp
      simp only [if_true, Option.some.injEq] at hp
      subst hp
      refine ⟨rfl, by simp, ?_⟩
      intro item hitem
      obtain ⟨x, _, hx⟩ := List.mem_map.mp hitem
      rw [← hx]
      exact itemImg_sanitize x
    · simp only [handleEvent] at hp
      rw [if_neg hcond] at hp
      simp at hp
  · decide

/-- Claim C8 witness: a screenshot flush from a one-event queue persists both
entries sanitized. -/
theorem flush_sanitizes_events_witness :
    (handleEvent 500 true eShot ⟨[QueueItem.ev eClickDiv], none⟩).2.persisted =
      some ((finishWorkflow ((enqueueEvent 500 eShot
          ⟨[QueueItem.ev eClickDiv], none⟩).currentWorkflow,
        (enqueueEvent 500 eShot ⟨[QueueItem.ev eClickDiv], none⟩).queue)).2.map
          sanitizeItem) ∧
    ∀ item ∈ (finishWorkflow ((enqueueEvent 500 eShot
          ⟨[QueueItem.ev eClickDiv], none⟩).currentWorkflow,
        (enqueueEvent 500 eShot ⟨[QueueItem.ev eClickDiv], none⟩).queue)).2.map
          sanitizeItem, itemImg item = none := by
  have hmain := flush_sanitizes_events
  have hinst := hmain.1 500 eShot ⟨[QueueItem.ev eClickDiv], none⟩
    ((finishWorkflow ((enqueueEvent 500 eShot
        ⟨[QueueItem.ev eClickDiv], none⟩).currentWorkflow,
      (enqueueEvent 500 eShot ⟨[QueueItem.ev eClickDiv], none⟩).queue)).2.map
        sanitizeItem) (by decide)
  exact ⟨by decide, hinst.2.2⟩

/-- Claim C9 (counterexample): a content-change capture at t = 5000 followed
by a periodic tick at t = 6000 produces a second capture only 1000 ms after
the previous one — inside MIN_SCREENSHOT_INTERVAL, so the hard floor does not
gate the periodic path. -/
theorem periodic_capture_within_min_interval :
    (contentChangeCheck 5000 "h2" ⟨0, "h"⟩).1 = true ∧
    (periodicTick 6000 false (contentChangeCheck 5000 "h2" ⟨0, "h"⟩).2).1 = true ∧
    6000 - (contentChangeCheck 5000 "h2" ⟨0, "h"⟩).2.lastScreenshotTime <
      MIN_SCREENSHOT_INTERVAL := by
  decide

/-- Claim C9 (amended): the content-change path gates on hash change AND the
MIN_SCREENSHOT_INTERVAL hard floor, but the periodic path gates only on
visibility and a SCREENSHOT_INTERVAL (1000 ms) spacing since the last
capture — the hard floor is not enforced on the periodic path. -/
theorem throttle_gate_semantics :
    (∀ now hash st, (contentChangeCheck now hash st).1 = true →
      hash ≠ st.lastDOMHash ∧
      MIN_SCREENSHOT_INTERVAL ≤ now - st.lastScreenshotTime) ∧
    (∀ now hidden st, (periodicTick now hidden st).1 = true →
      hidden = false ∧ SCREENSHOT_INTERVAL ≤ now - st.lastScreenshotTime) := by
  constructor
  · intro now hash st hc
    unfold contentChangeCheck at hc
    split at hc
    · rename_i hcond
      rw [Bool.and_eq_true] at hcond
      refine ⟨by simpa using hcond.1, ?_⟩
      have := hcond.2
      unfold canTakeScreenshot at this
      simpa using this
    · simp at hc
  · intro now hidden st hc
    unfold periodicTick at hc
    split at hc
    · simp at hc
    · split at hc
      · simp at hc
      · rename_i hhid hlt
        constructor
        · simpa using hhid
        · omega

/-- Claim C9 witness: a capture on each path, with its gates established. -/
theorem throttle_gate_semantics_witness :
    ("h2" ≠ (⟨0, "h"⟩ : ThrottleState).lastDOMHash ∧
      MIN_SCREENSHOT_INTERVAL ≤ 5000 - (⟨0, "h"⟩ : ThrottleState).lastScreenshotTime) ∧
    (false = false ∧
      SCREENSHOT_INTERVAL ≤ 2000 - (⟨0, "h"⟩ : ThrottleState).lastScreenshotTime) :=
  ⟨throttle_gate_semantics.1 5000 "h2" ⟨0, "h"⟩ (by decide),
   throttle_gate_semantics.2 2000 false ⟨0, "h"⟩ (by decide)⟩

theorem strData_append (a b : String) : (a ++ b).data = a.data ++ b.data := rfl

/-- Distinct same-length request ids always produce distinct VLM cache keys,
whatever the image payloads. -/
theorem vlmCacheKey_ne (id1 img1 id2 img2 : String)
    (hlen : id1.length = id2.length) (hne : id1 ≠ id2) :
    vlmCacheKey id1 img1 ≠ vlmCacheKey id2 img2 := by
  intro heq
  apply hne
  unfold vlmCacheKey at heq
  have hd := congrArg String.data heq
  rw [strData_append, strData_append, strData_append, strData_append,
    List.append_assoc, List.append_assoc] at hd
  have hdl : id1.data.length = id2.data.length := hlen
  have := (List.append_inj hd hdl).1
  cases id1
  cases id2
  exact congrArg String.mk this

/-- Claim C10: the VLM worker cache key prefixes the request correlation id,
so a fresh id (distinct from every cached request id of the same length)
always misses the pre-inference cache probe — identical image input under a
different id can never return a cached response. -/
theorem vlm_cache_key_id_scoped :
    (∀ id1 img1 id2 img2 : String, id1.length = id2.length → id1 ≠ id2 →
      vlmCacheKey id1 img1 ≠ vlmCacheKey id2 img2) ∧
    (∀ (cache : List (String × String)) (id img : String),
      (∀ k ∈ cache.map Prod.fst, ∃ idk imgk, k = vlmCacheKey idk imgk ∧
        idk.length = id.length ∧ idk ≠ id) →
      vlmCacheProbe cache id img = none) := by
  refine ⟨vlmCacheKey_ne, ?_⟩
  intro cache id img hks
  induction cache with
  | nil => rfl
  | cons kv rest ih =>
      obtain ⟨idk, imgk, hk, hklen, hkne⟩ := hks kv.1 (by simp)
      unfold vlmCacheProbe tblLookup
      rw [if_neg]
      · exact ih (fun k hkm => hks k (by simp [hkm]))
      · rw [hk]
        exact vlmCacheKey_ne idk imgk id img hklen hkne

/-- Claim C10 witness: a cache holding a key for id aaa misses for id bbb
with the identical image, and the two keys differ. -/
theorem vlm_cache_key_id_scoped_witness :
    vlmCacheKey "aaa" "img" ≠ vlmCacheKey "bbb" "img" ∧
    vlmCacheProbe [(vlmCacheKey "aaa" "img", "resp")] "bbb" "img" = none :=
  ⟨vlm_cache_key_id_scoped.1 "aaa" "img" "bbb" "img" rfl (by decide),
   vlm_cache_key_id_scoped.2 [(vlmCacheKey "aaa" "img", "resp")] "bbb" "img"
     (by
       intro k hk
       simp only [List.map_cons, List.map_nil, List.mem_singleton] at hk
       exact ⟨"aaa", "img", hk, rfl, by decide⟩)⟩

end LLMLogger
